import Mathlib

/-!
# Resume-Checker: shallow embedding and verification

A shallow embedding of the evaluation, chunking, extraction and deletion logic
of the Resume-Checker web application, with theorems settling the spec claims.

External managed services (Supabase, Gemini, Pinecone, `pdf-parse`, `mammoth`,
the `js-tiktoken` BPE tokenizer and JavaScript builtins such as `JSON.parse`)
are modelled as injected outcomes or function parameters; every decision made
by the repository's own code is embedded concretely.
-/

namespace ResumeChecker

/-! ## Basic string machinery

JavaScript `\s` (for the uses in this repository: `trim`, `replace(/\s+/g," ")`,
`split(/(?<=[.!?])\s+/)`, `split(/\s+/)`, `replace(/^```json\s*/)`) is modelled
by the four common whitespace characters. -/

def isWsChar (c : Char) : Bool :=
  c = ' ' || c = '\t' || c = '\n' || c = '\r'

/-- `String.prototype.trim`, on the character list. -/
def trimChars (l : List Char) : List Char :=
  ((l.dropWhile isWsChar).reverse.dropWhile isWsChar).reverse

/-- `Array.prototype.join(" ")` as used on sentence/word arrays. -/
def joinSp : List String → String
  | [] => ""
  | [s] => s
  | s :: t :: rest => s ++ " " ++ joinSp (t :: rest)

/-! ## Pass/fail status policy -/

inductive Status where
  | pass
  | fail
  deriving DecidableEq, Repr

/-- Client-side status derivation, `src/components/ResumeCard.tsx` line 170:
`latestEval.fit_score >= 50 ? 'pass' : 'fail'`. -/
def resumeCardStatus (fit_score : Int) : Status :=
  if fit_score ≥ 50 then .pass else .fail

/-! ## Chat evaluation flows (`src/app/api/chat-criteria/route.ts`)

Both variants of the endpoint (the RAG variant and the `get_resumes` variant)
contain the identical save loop over `parsed.evaluations`; `chatSaveStep`
embeds the per-entry logic (route.ts lines 286-329 and 620-664). -/

/-- One parsed entry of the model's `evaluations` array. `is_resume` is
tri-state because the code tests `evalData.is_resume !== false`: an absent
field (`none`) counts as a valid resume. -/
structure EvalData where
  resumeId : String
  resumeName : String
  is_resume : Option Bool
  fit_score : Int
  missing_skills : Option (List String)
  feedback : Option String
  deriving DecidableEq, Repr

/-- A row of the `evaluations` table (the fields this verification needs). -/
structure EvalRow where
  resume_id : String
  fit_score : Int
  missing_skills : List String
  feedback : String
  deriving DecidableEq, Repr

/-- The per-resume object pushed onto the chat response's `evaluations`. -/
structure ChatSaveResult where
  resumeId : String
  score : Int
  status : Status
  feedback : Option String
  deriving DecidableEq, Repr

/-- JavaScript `x || d` for an optional string (absent and `""` are falsy). -/
def orElseStr (s : Option String) (d : String) : String :=
  match s with
  | some t => if t = "" then d else t
  | none => d

/-- The save step of the chat flows for one `evalData` entry: computes the
status, overrides status/feedback for non-resumes, and builds the database row
and the response entry. Mirrors route.ts lines 286-329. -/
def chatSaveStep (e : EvalData) : EvalRow × ChatSaveResult :=
  let isValidResume := e.is_resume ≠ some false
  let status0 : Status := if e.fit_score ≥ 50 then .pass else .fail
  let status := if isValidResume then status0 else .fail
  let feedback := if isValidResume then e.feedback else some "❌ Not a valid resume document"
  ({ resume_id := e.resumeId
     fit_score := e.fit_score
     missing_skills := e.missing_skills.getD []
     feedback := orElseStr feedback "No feedback" },
   { resumeId := e.resumeId
     score := e.fit_score
     status := status
     feedback := feedback })

/-- The save loop of the chat flows (route.ts lines 280-336 / 616-671).
`known` models the resume lookup (`resumeChunksMap.get` / `resumes.find`):
entries whose id is unknown are skipped. Each entry carries a flag telling
whether its insert throws; such an error is caught and the loop continues.
The delete-by-`resume_id` always precedes the insert. -/
def chatSaveLoop (known : List String) : List EvalRow → List (EvalData × Bool) →
    List EvalRow × List ChatSaveResult
  | db, [] => (db, [])
  | db, (e, insertThrows) :: rest =>
    if known.contains e.resumeId then
      let db2 := db.filter (fun r => r.resume_id ≠ e.resumeId)
      if insertThrows then
        chatSaveLoop known db2 rest
      else
        let pr := chatSaveStep e
        let rec2 := chatSaveLoop known (db2 ++ [pr.1]) rest
        (rec2.1, pr.2 :: rec2.2)
    else
      chatSaveLoop known db rest

/-! ## Bulk evaluation (`src/app/api/bulkEvaluate` route, `src/unnamed/part_005`) -/

/-- The `criteria` object of an evaluation request. Optional fields model
absent/falsy JavaScript values (`none` = absent; `some ""` = empty string,
which is falsy; an empty skills array is truthy). -/
structure Criteria where
  role : Option String
  skills : Option (List String)
  job_description : Option String
  deriving DecidableEq, Repr

/-- JavaScript truthiness of an optional string. -/
def truthyStr : Option String → Bool
  | none => false
  | some s => s ≠ ""

/-- A row of the `resumes` table (the fields this verification needs). -/
structure ResumeRow where
  id : String
  file_name : String
  file_url : Option String
  extracted_text : Option String
  deriving DecidableEq, Repr

/-- The model response for one resume after `JSON.parse` of the text returned
by `evaluateResume`. -/
structure ParsedResp where
  is_resume : Option Bool
  fit_score : Int
  missing_skills : List String
  feedback : String
  deriving DecidableEq, Repr

/-- Outcome of the Gemini call plus `JSON.parse` while processing one resume. -/
inductive LlmOutcome where
  | threw (msg : String)
  | badJson
  | parsed (p : ParsedResp)
  deriving DecidableEq, Repr

/-- Injected outcomes of the external calls made while processing one resume
id in the bulk loop: the Supabase fetch (`none` models `resumeError || !resume`),
the LLM call + parse, and whether the evaluation insert reports an error. -/
structure StepOracle where
  fetch : Option ResumeRow
  llm : LlmOutcome
  insertError : Bool
  deriving DecidableEq, Repr

/-- The `summary` of the final `complete` event. `errors` is an `Int` because
the code computes it as `errorCount - rejectedCount`. -/
structure Summary where
  total : Nat
  passed : Nat
  failed : Nat
  rejected : Nat
  errors : Int
  deriving DecidableEq, Repr

/-- A server-sent event of the bulk evaluation stream. -/
inductive Event where
  | progress (resumeId resumeName : String)
  | result (resumeId resumeName : String) (score : Int) (status : Status)
  | error (resumeId resumeName : String) (msg : String) (isNotResume : Bool)
  | complete (s : Summary)
  deriving DecidableEq, Repr

/-- The four counters of the bulk loop (part_005 lines 127-130). -/
structure Counters where
  pass : Nat
  fail : Nat
  rejected : Nat
  error : Nat
  deriving DecidableEq, Repr

def Counters.zero : Counters := ⟨0, 0, 0, 0⟩

/-- Processing of a single resume id inside the bulk stream
(part_005 lines 136-281): fetch, progress event, extracted-text check,
LLM call + parse, not-a-resume rejection, delete-then-insert, result event.
Returns the updated evaluations table, updated counters, and emitted events. -/
def processOne (db : List EvalRow) (cnt : Counters) (id : String) (i : Nat)
    (o : StepOracle) : List EvalRow × Counters × List Event :=
  match o.fetch with
  | none =>
    (db, { cnt with error := cnt.error + 1 },
     [.error id ("Resume " ++ toString (i + 1)) "Resume not found" false])
  | some r =>
    let progressEv := Event.progress r.id r.file_name
    if r.extracted_text.getD "" = "" then
      (db, { cnt with error := cnt.error + 1 },
       [progressEv, .error r.id r.file_name "Resume text not available" false])
    else
      match o.llm with
      | .threw msg =>
        (db, { cnt with error := cnt.error + 1 },
         [progressEv, .error r.id r.file_name msg false])
      | .badJson =>
        (db, { cnt with error := cnt.error + 1 },
         [progressEv, .error r.id r.file_name "Invalid AI response format" false])
      | .parsed p =>
        if p.is_resume = some false then
          (db, { cnt with rejected := cnt.rejected + 1 },
           [progressEv,
            .error r.id r.file_name "This file does not appear to be a resume" true])
        else
          let db2 := db.filter (fun row => row.resume_id ≠ id)
          if o.insertError then
            (db2, { cnt with error := cnt.error + 1 },
             [progressEv, .error r.id r.file_name "Failed to save evaluation" false])
          else
            let db3 := db2 ++ [⟨id, p.fit_score, p.missing_skills, p.feedback⟩]
            let status : Status := if p.fit_score ≥ 50 then .pass else .fail
            let cnt2 := if status = .pass then { cnt with pass := cnt.pass + 1 }
                        else { cnt with fail := cnt.fail + 1 }
            (db3, cnt2, [progressEv, .result r.id r.file_name p.fit_score status])

/-- The bulk loop over all requested resume ids (part_005 lines 133-282). -/
def bulkLoop : List EvalRow → Counters → Nat → List (String × StepOracle) →
    List EvalRow × Counters × List Event
  | db, cnt, _, [] => (db, cnt, [])
  | db, cnt, i, (id, o) :: rest =>
    let r1 := processOne db cnt id i o
    let r2 := bulkLoop r1.1 r1.2.1 (i + 1) rest
    (r2.1, r2.2.1, r1.2.2 ++ r2.2.2)

/-- The whole SSE stream of a validated bulk request, ending with the single
`complete` event whose summary is built at part_005 lines 284-296; note
`errors := errorCount - rejectedCount`. -/
def bulkStream (ids : List String) (os : List StepOracle) (db : List EvalRow) :
    List EvalRow × List Event :=
  let r := bulkLoop db Counters.zero 0 (ids.zip os)
  (r.1, r.2.2 ++
    [.complete { total := ids.length
                 passed := r.2.1.pass
                 failed := r.2.1.fail
                 rejected := r.2.1.rejected
                 errors := (r.2.1.error : Int) - (r.2.1.rejected : Int) }])

/-- Request body of `POST /api/bulkEvaluate`. -/
structure BulkBody where
  resumeIds : Option (List String)
  criteria : Option Criteria
  deriving DecidableEq, Repr

/-- Input validation of `POST /api/bulkEvaluate` (part_005 lines 92-115),
returning the 400 message when the request is rejected. -/
def bulkValidationError (b : BulkBody) : Option String :=
  match b.resumeIds with
  | none => some "Resume IDs are required"
  | some ids =>
    if ids.length = 0 then some "Resume IDs are required"
    else
      match b.criteria with
      | none => some "Criteria is required"
      | some c =>
        if ¬ truthyStr c.role ∧ c.skills.getD [] = [] then
          some "Either role or skills must be provided in criteria"
        else none

/-- `POST /api/bulkEvaluate`: validation then the SSE stream.
`.error (400, msg)` is the JSON error response; `.ok` carries the final
evaluations table and the emitted stream. -/
def bulkPOST (b : BulkBody) (os : List StepOracle) (db : List EvalRow) :
    Except (Nat × String) (List EvalRow × List Event) :=
  match bulkValidationError b with
  | some msg => .error (400, msg)
  | none => .ok (bulkStream (b.resumeIds.getD []) os db)

/-- Request body of `POST /api/checkResume`. -/
structure CheckBody where
  resumeId : Option String
  criteria : Option Criteria
  deriving DecidableEq, Repr

/-- Input validation of `POST /api/checkResume`
(src/app/api/checkResume/route.ts lines 13-19): requires a truthy resumeId and
truthy `role`, `skills` (an empty array is truthy) and `job_description`. -/
def checkValidationError (b : CheckBody) : Option (Nat × String) :=
  if ¬ truthyStr b.resumeId then some (400, "Resume ID is required")
  else
    match b.criteria with
    | none => some (400, "All criteria fields are required")
    | some c =>
      if ¬ truthyStr c.role ∨ c.skills = none ∨ ¬ truthyStr c.job_description then
        some (400, "All criteria fields are required")
      else none

/-! ## Resume deletion (`src/app/api/checkResume/route.ts`, DELETE handler)

Both handler variants (the traced one at lines 104-346 and the plain one at
lines 357-435) run the same sequence: fetch the resume, best-effort blob
removal, delete evaluations (error → 500), best-effort Pinecone removal
inside try/catch, delete the resume row (error → 500), success response. -/

/-- The relational state the DELETE handler touches. -/
structure AppDb where
  resumes : List ResumeRow
  evaluations : List EvalRow
  deriving DecidableEq, Repr

/-- Injected outcomes of the handler's external calls: the `new URL` parse of
`file_url` (`none` models the constructor throwing; otherwise the pathname
segments), and error flags for storage removal, the two database deletes, and
the Pinecone removal (which models both failure and an absent vector set). -/
structure DeleteOracle where
  urlParts : Option (List String)
  storageError : Bool
  evalDeleteError : Bool
  pineconeThrows : Bool
  resumeDeleteError : Bool
  deriving DecidableEq, Repr

/-- File-path extraction from the parsed URL segments
(route.ts lines 378-392): everything after the `resumes` segment. -/
def filePathOf (parts : Option (List String)) : Option String :=
  match parts with
  | none => none
  | some ps =>
    let i := ps.indexOf "resumes"
    if i + 1 < ps.length then some (String.intercalate "/" (ps.drop (i + 1)))
    else none

/-- `DELETE /api/deleteResume` (route.ts lines 357-435). Returns the HTTP
status and message together with the final database state. -/
def deleteResumeHandler (db : AppDb) (resumeId : Option String)
    (o : DeleteOracle) : (Nat × String) × AppDb :=
  if ¬ truthyStr resumeId then ((400, "Resume ID is required"), db)
  else
    let rid := resumeId.getD ""
    match db.resumes.find? (fun r => r.id = rid) with
    | none => ((404, "Resume not found"), db)
    | some r =>
      let filePath := if truthyStr r.file_url then filePathOf o.urlParts else none
      -- storage removal runs when `filePath` is set; its error is logged and
      -- ignored, so neither `filePath` nor `o.storageError` affects the rest
      let _ := (filePath, o.storageError)
      if o.evalDeleteError then ((500, "Failed to delete resume evaluations"), db)
      else
        let db2 := { db with evaluations := db.evaluations.filter (fun e => e.resume_id ≠ rid) }
        -- Pinecone removal is wrapped in try/catch; a throw is logged and ignored
        let _ := o.pineconeThrows
        if o.resumeDeleteError then ((500, "Failed to delete resume"), db2)
        else ((200, "Resume deleted successfully"),
              { db2 with resumes := db2.resumes.filter (fun r2 => r2.id ≠ rid) })

/-! ## Gemini response post-processing (`src/lib/llm/gemini.ts`, `evaluateResume`)

The Gemini SDK call and `JSON.parse` are external; the model response arrives
as the raw string and JSON validity as a predicate parameter. Every string
operation of the cleanup (lines 26-50) is embedded concretely. -/

/-- Strip the trailing markdown fence: `replace(/\s*```$/, "")`. -/
def stripFenceEnd (l : List Char) : List Char :=
  let r := l.reverse
  if ("```".data).isPrefixOf r then ((r.drop 3).dropWhile isWsChar).reverse
  else l

/-- Strip markdown code-fence formatting (gemini.ts lines 30-34):
a leading ```` ```json ```` or ```` ``` ```` plus following whitespace, and in
those cases also the trailing fence. -/
def stripFences (l : List Char) : List Char :=
  if ("```json".data).isPrefixOf l then stripFenceEnd ((l.drop 7).dropWhile isWsChar)
  else if ("```".data).isPrefixOf l then stripFenceEnd ((l.drop 3).dropWhile isWsChar)
  else l

/-- `text.match(/\{[\s\S]*\}/)`: the greedy match runs from the first opening
brace to the last closing brace, when the latter comes after the former. -/
def extractBraced (l : List Char) : Option (List Char) :=
  match l.findIdx? (fun c => c = '\x7b'), l.reverse.findIdx? (fun c => c = '\x7d') with
  | some i, some jr =>
    let j := l.length - 1 - jr
    if i < j then some ((l.drop i).take (j - i + 1)) else none
  | _, _ => none

/-- The full cleanup `evaluateResume` applies to the model's text
(gemini.ts lines 26-40): trim, strip fences, extract the brace-delimited span
if one is found. -/
def cleanLlm (raw : String) : String :=
  let t := stripFences (trimChars raw.data)
  match extractBraced t with
  | some m => ⟨m⟩
  | none => ⟨t⟩

/-- `evaluateResume` after the model call (gemini.ts lines 26-50):
validates the cleaned text with `JSON.parse` (the parameter `jsonParses`) and
returns it, or raises the invalid-JSON error. -/
def evaluateResumeResult (raw : String) (jsonParses : String → Bool) :
    Except String String :=
  let c := cleanLlm raw
  if jsonParses c then .ok c
  else .error ("Gemini returned invalid JSON format: " ++ c.take 200 ++ "...")

/-! ## Text extraction (`src/lib/extract/`) -/

/-- `filename.split(".")`. -/
def splitDots : List Char → List (List Char)
  | [] => [[]]
  | c :: cs =>
    let r := splitDots cs
    if c = '.' then [] :: r
    else
      match r with
      | [] => [[c]]
      | h :: t => (c :: h) :: t

/-- `filename.split(".").pop()?.toLowerCase()` (detect.ts line 5). -/
def getExt (filename : String) : String :=
  ⟨((splitDots filename.data).getLastD []).map Char.toLower⟩

/-- The fallback string `extractFromPDF` returns when `pdf-parse` throws. -/
def pdfFallbackMsg : String :=
  "PDF text extraction failed. Please try uploading a different file format."

/-- `extractFromPDF` (pdf.ts lines 3-12): the `pdf-parse` outcome is injected;
on success returns `data.text || ""`, on failure the fallback string. -/
def extractFromPDF (pdfRes : Except String (Option String)) : String :=
  match pdfRes with
  | .ok t => t.getD ""
  | .error _ => pdfFallbackMsg

/-- `extractFromDocx` (docx.ts lines 3-6): the `mammoth` outcome is injected;
on success returns `result.value || ""`, a failure propagates. -/
def extractFromDocx (docxRes : Except String (Option String)) : Except String String :=
  match docxRes with
  | .ok v => .ok (v.getD "")
  | .error e => .error e

/-- `extractText` (detect.ts lines 4-11): dispatch on the lowercased extension.
The buffer is modelled by its UTF-8 decoding `buffer`. -/
def extractText (pdfRes docxRes : Except String (Option String))
    (buffer : String) (filename : String) : Except String String :=
  let ext := getExt filename
  if ext = "pdf" then .ok (extractFromPDF pdfRes)
  else if ext = "doc" ∨ ext = "docx" then extractFromDocx docxRes
  else .ok buffer

/-! ## Chunking (`src/unnamed/part_008`, `chunkText`)

`countTokens` wraps the external `js-tiktoken` BPE encoder, so the token
counter is a function parameter `tc` here; everything else is embedded
concretely. The two regex splits are applied by the source only to
`cleanedText` (trimmed, whitespace runs collapsed to single spaces), on which
every whitespace run has length one, so they are embedded as single-character
splits. -/

/-- `replace(/\s+/g, " ")`: collapse each whitespace run to a single space.
The flag records whether we are inside a run. -/
def collapseWs : Bool → List Char → List Char
  | _, [] => []
  | inRun, c :: cs =>
    if isWsChar c then
      if inRun then collapseWs true cs else ' ' :: collapseWs true cs
    else c :: collapseWs false cs

/-- `text.trim().replace(/\s+/g, " ")` (part_008 line 29). -/
def normalizeText (s : String) : String :=
  ⟨collapseWs false (trimChars s.data)⟩

def isSentEnd (c : Char) : Bool :=
  c = '.' || c = '!' || c = '?'

/-- The lookbehind condition of the sentence split: the current character is
whitespace and the previous consumed character ends a sentence. -/
def sentBreakHere (c : Char) (cur : List Char) : Bool :=
  isWsChar c && (match cur with | p :: _ => isSentEnd p | [] => false)

/-- `cleanedText.split(/(?<=[.!?])\s+/)` (part_008 line 32) on input whose
whitespace runs are single characters: break after a sentence-ending
punctuation mark followed by whitespace, consuming the whitespace.
The accumulator holds the current piece reversed. -/
def splitSentAux (cur : List Char) : List Char → List (List Char)
  | [] => [cur.reverse]
  | c :: cs =>
    if sentBreakHere c cur then cur.reverse :: splitSentAux [] cs
    else splitSentAux (c :: cur) cs

def splitSentences (s : String) : List String :=
  (splitSentAux [] s.data).map (fun l => ⟨l⟩)

/-- `sentence.split(/\s+/)` (part_008 line 51) on input whose whitespace runs
are single characters. -/
def splitWsAux (cur : List Char) : List Char → List (List Char)
  | [] => [cur.reverse]
  | c :: cs =>
    if isWsChar c then cur.reverse :: splitWsAux [] cs
    else splitWsAux (c :: cur) cs

def splitWords (s : String) : List String :=
  (splitWsAux [] s.data).map (fun l => ⟨l⟩)

/-- `wordChunk.slice(-k)` for `k = Math.ceil(overlap / 10)` (part_008
line 62). JavaScript `slice(-0)` is `slice(0)`, the whole array. -/
def ovSlice (k : Nat) (l : List String) : List String :=
  if k = 0 then l else l.drop (l.length - k)

/-- `currentChunk.slice(-2)` (part_008 line 84). -/
def sliceLast2 (l : List String) : List String :=
  l.drop (l.length - 2)

/-- The word loop splitting an oversized sentence (part_008 lines 55-69).
Returns the chunks pushed inside the loop, the final `wordChunk`, and the
final `wordTokenCount`. -/
def wordLoop (tc : String → Nat) (m k : Nat) :
    List String → List String → Nat → List String × List String × Nat
  | [], wc, cnt => ([], wc, cnt)
  | w :: ws, wc, cnt =>
    if cnt + tc w > m then
      let wc2 := ovSlice k wc ++ [w]
      let r := wordLoop tc m k ws wc2 (tc (joinSp wc2))
      (joinSp wc :: r.1, r.2)
    else
      wordLoop tc m k ws (wc ++ [w]) (cnt + tc w)

/-- All chunks produced for one oversized sentence (part_008 lines 50-73):
the loop's pushes plus the final `wordChunk` if non-empty. -/
def wordChunksOf (tc : String → Nat) (m k : Nat) (s : String) : List String :=
  let r := wordLoop tc m k (splitWords s) [] 0
  r.1 ++ (if r.2.1.length > 0 then [joinSp r.2.1] else [])

/-- The sentence loop of `chunkText` (part_008 lines 38-97), including the
final push of a non-empty `currentChunk`. -/
def sentLoop (tc : String → Nat) (m k : Nat) :
    List String → List String → Nat → List String
  | [], cur, _ => if cur.length > 0 then [joinSp cur] else []
  | s :: ss, cur, cnt =>
    if tc s > m then
      (if cur.length > 0 then [joinSp cur] else []) ++
        wordChunksOf tc m k s ++ sentLoop tc m k ss [] 0
    else if cnt + tc s > m then
      let cur2 := sliceLast2 cur ++ [s]
      joinSp cur :: sentLoop tc m k ss cur2 (tc (joinSp cur2))
    else
      sentLoop tc m k ss (cur ++ [s]) (cnt + tc s)

/-- `chunkText(text, maxTokens, overlap)` (part_008 lines 23-106), with the
token counter `tc` injected. The defaults in the source are
`maxTokens = 3000`, `overlap = 200`. -/
def chunkText (tc : String → Nat) (maxTokens overlap : Nat) (text : String) :
    List String :=
  sentLoop tc maxTokens ((overlap + 9) / 10)
    (splitSentences (normalizeText text)) [] 0

/-! ### Instrumented chunker

The same recursion, but each chunk is kept as a pair
`(carried, fresh)`: the items copied in as manufactured overlap and the items
newly consumed from the input. Rendering a pair with `renderChunk` recovers
the chunk text, and the `fresh` components are what overlap removal leaves. -/

/-- carried items (manufactured overlap) and fresh items of one chunk. -/
abbrev Chunk := List String × List String

def renderChunk (c : Chunk) : String := joinSp (c.1 ++ c.2)

/-- Instrumented version of `wordLoop`. -/
def wordLoopI (tc : String → Nat) (m k : Nat) :
    List String → Chunk → Nat → List Chunk × Chunk × Nat
  | [], wc, cnt => ([], wc, cnt)
  | w :: ws, wc, cnt =>
    if cnt + tc w > m then
      let ov := ovSlice k (wc.1 ++ wc.2)
      let r := wordLoopI tc m k ws (ov, [w]) (tc (joinSp (ov ++ [w])))
      (wc :: r.1, r.2)
    else
      wordLoopI tc m k ws (wc.1, wc.2 ++ [w]) (cnt + tc w)

/-- Instrumented version of `wordChunksOf`. -/
def wordChunksOfI (tc : String → Nat) (m k : Nat) (s : String) : List Chunk :=
  let r := wordLoopI tc m k (splitWords s) ([], []) 0
  r.1 ++ (if (r.2.1.1 ++ r.2.1.2).length > 0 then [r.2.1] else [])

/-- Instrumented version of `sentLoop`. -/
def sentLoopI (tc : String → Nat) (m k : Nat) :
    List String → Chunk → Nat → List Chunk
  | [], cur, _ => if (cur.1 ++ cur.2).length > 0 then [cur] else []
  | s :: ss, cur, cnt =>
    if tc s > m then
      (if (cur.1 ++ cur.2).length > 0 then [cur] else []) ++
        wordChunksOfI tc m k s ++ sentLoopI tc m k ss ([], []) 0
    else if cnt + tc s > m then
      let ov := sliceLast2 (cur.1 ++ cur.2)
      cur :: sentLoopI tc m k ss (ov, [s]) (tc (joinSp (ov ++ [s])))
    else
      sentLoopI tc m k ss (cur.1, cur.2 ++ [s]) (cnt + tc s)

/-- Instrumented version of `chunkText`. -/
def chunkTextI (tc : String → Nat) (maxTokens overlap : Nat) (text : String) :
    List Chunk :=
  sentLoopI tc maxTokens ((overlap + 9) / 10)
    (splitSentences (normalizeText text)) ([], []) 0

/-- The word count, a concrete token counter on concrete inputs. It counts
one token per whitespace-separated word, so it is subadditive for joins with
a single space. -/
def tcWords (s : String) : Nat :=
  ((splitWsAux [] s.data).filter (fun w => w ≠ [])).length

/-- The constant-zero token counter, a degenerate concrete instance. -/
def tc0 : String → Nat := fun _ => 0

/-! ## Observation helpers -/

/-- All whitespace characters of the list are plain spaces. This holds for
normalized text and is what makes the single-character splits lossless. -/
def onlySpaceList (l : List Char) : Prop :=
  ∀ c ∈ l, isWsChar c = true → c = ' '

/-- Number of evaluation rows stored for a resume id. -/
def countRows (db : List EvalRow) (id : String) : Nat :=
  db.countP (fun row => row.resume_id = id)

/-- The resume id of a `result` event, if the event is one. -/
def eventResultId : Event → Option String
  | .result rid _ _ _ => some rid
  | _ => none

/-! ## Concrete inputs used by the claim theorems -/

def c1e : EvalData := ⟨"r1", "cv.pdf", some false, 80, some [], some "ok"⟩

def c1ce : EvalData := ⟨"r2", "notes.pdf", some false, 80, some [], some "good"⟩

def c1wo : StepOracle :=
  ⟨some ⟨"rb", "doc.txt", some "u", some "text here"⟩,
   .parsed ⟨some false, 30, [], "not a resume"⟩, false⟩

def c3e : EvalData := ⟨"r3", "cv.docx", some false, 70, some [], some "fb"⟩

def c3w : EvalData := ⟨"r4", "cv.pdf", some true, 72, some [], some "fb"⟩

def c3wo : StepOracle :=
  ⟨some ⟨"r1", "a.pdf", some "u", some "text"⟩,
   .parsed ⟨some true, 80, [], "good"⟩, false⟩

def c2Resume : ResumeRow := ⟨"r1", "notes.txt", some "u", some "just some prose"⟩

def c2Oracle : StepOracle := ⟨some c2Resume, .parsed ⟨some false, 95, [], "nr"⟩, false⟩

def c2Body : BulkBody := ⟨some ["r1"], some ⟨some "Engineer", some ["Python"], none⟩⟩

/-- Whether an event is the final `complete` event. -/
def isCompleteEvent : Event → Bool
  | .complete _ => true
  | _ => false

/-- The summary of the single `complete` event of the C2 run. -/
def c2Summary : Summary := ⟨1, 0, 0, 1, -1⟩

def c10wc : Criteria := ⟨some "Dev", some ["Go"], some "building services"⟩

def c8raw : String := "```json\n\x7b\x7d\n```"

def c8jp : String → Bool := fun s => s == "\x7b\x7d"

def c7r : ResumeRow := ⟨"r1", "cv.pdf", some "u", some "t"⟩

def c7db : AppDb := ⟨[c7r], [⟨"r1", 60, [], "fb"⟩, ⟨"r1", 40, [], "fb2"⟩]⟩

def c7o : DeleteOracle := ⟨none, true, false, true, false⟩

def c6o : StepOracle :=
  ⟨some ⟨"r1", "a.pdf", some "u", some "txt"⟩, .parsed ⟨some true, 80, [], "fb"⟩,
   false⟩

def c6ps : List (String × StepOracle) := [("r1", c6o)]

def c6db : List EvalRow := [⟨"r1", 10, [], "old"⟩, ⟨"r1", 20, [], "old2"⟩]

def c6e : EvalData := ⟨"r9", "b.pdf", some true, 55, some ["Go"], some "fine"⟩

def c4text : String := "aa bb cc. dd ee ff. gg hh ii."

/-! ## Claim C1

As stated, the claim fails: in the chat evaluation flows the status is forced
to `fail` and the feedback overridden for `is_resume = false`, but the
recorded and returned score stays the model-reported `fit_score`; in the bulk
flow no evaluation is recorded at all for such a document. -/

/-- C1 counterexample: a chat-flow model entry with `is_resume = false` and
`fit_score = 80` is saved and returned with score 80, not 0. -/
theorem C1_counterexample :
    c1ce.is_resume = some false ∧
    (chatSaveStep c1ce).1.fit_score = 80 ∧
    (chatSaveStep c1ce).1.fit_score ≠ 0 ∧
    (chatSaveStep c1ce).2.score = 80 ∧
    (chatSaveStep c1ce).2.status = .fail := by decide

/-- C1 amended: for a document judged not-a-resume, the chat flows force the
status to `fail` and override the feedback but keep the model-reported score
in the saved row and the response, and the bulk flow records nothing for it,
leaving the table unchanged and emitting a rejection error event. -/
theorem C1_amended :
    (∀ e : EvalData, e.is_resume = some false →
      (chatSaveStep e).2.status = .fail ∧
      (chatSaveStep e).2.feedback = some "❌ Not a valid resume document" ∧
      (chatSaveStep e).1.fit_score = e.fit_score ∧
      (chatSaveStep e).2.score = e.fit_score) ∧
    (∀ db cnt id i o r p, o.fetch = some r → r.extracted_text.getD "" ≠ "" →
      o.llm = .parsed p → p.is_resume = some false →
      processOne db cnt id i o =
        (db, { cnt with rejected := cnt.rejected + 1 },
         [.progress r.id r.file_name,
          .error r.id r.file_name "This file does not appear to be a resume" true])) := by
  constructor
  · intro e he
    simp [chatSaveStep, he]
  · intro db cnt id i o r p hf ht hl hir
    simp [processOne, hf, ht, hl, hir]

theorem C1_witness :
    (c1e.is_resume = some false ∧ (chatSaveStep c1e).2.status = .fail ∧
      (chatSaveStep c1e).1.fit_score = c1e.fit_score) ∧
    processOne [] Counters.zero "rb" 0 c1wo =
      ([], { Counters.zero with rejected := 1 },
       [.progress "rb" "doc.txt",
        .error "rb" "doc.txt" "This file does not appear to be a resume" true]) :=
  ⟨⟨rfl, (C1_amended.1 c1e rfl).1, (C1_amended.1 c1e rfl).2.2.1⟩,
   C1_amended.2 [] Counters.zero "rb" 0 c1wo _ _ rfl (by decide) rfl rfl⟩

/-! ## Claim C2

The summary counters do not account for every resume: rejections increment
only `rejectedCount`, yet the summary reports
`errors = errorCount - rejectedCount`, so with one rejected resume the
summary is `total 1, passed 0, failed 0, rejected 1, errors -1` and the four
counts sum to 0, not to `total`. -/

/-- C2: bulk-evaluating one resume whose model response says
`is_resume = false` yields a `complete` summary whose `errors` count is `-1`
and whose four counts do not sum to `total`. -/
theorem C2_code_bug :
    bulkPOST c2Body [c2Oracle] [] =
      .ok ([], [.progress "r1" "notes.txt",
                .error "r1" "notes.txt" "This file does not appear to be a resume" true,
                .complete ⟨1, 0, 0, 1, -1⟩]) ∧
    ((bulkStream ["r1"] [c2Oracle] []).2.filter isCompleteEvent =
      [.complete c2Summary]) ∧
    ((c2Summary.passed : Int) + (c2Summary.failed : Int) +
        (c2Summary.rejected : Int) + c2Summary.errors ≠ (c2Summary.total : Int)) :=
  ⟨rfl, by decide, by decide⟩

/-! ## Claim C3

As stated, the claim fails: in the chat flows a document judged not-a-resume
keeps its model-reported score but is forced to status `fail`, so a score of
70 is reported with status `fail`. -/

/-- C3 counterexample: a chat-flow entry with `is_resume = false` and score 70
is reported with status `fail` although its score is at least 50. -/
theorem C3_counterexample :
    (50 : Int) ≤ (chatSaveStep c3e).2.score ∧
    (chatSaveStep c3e).2.status = .fail ∧
    (chatSaveStep c3e).1.fit_score = (chatSaveStep c3e).2.score := by decide

/-- C3 amended: `status = pass ↔ score ≥ 50` holds unconditionally in the bulk
flow's result events and in the client-side derivation, and in the chat flows
for every entry not judged not-a-resume (`is_resume = false` forces `fail`
regardless of the score). -/
theorem C3_amended :
    (∀ db cnt id i o rid rname sc st,
      Event.result rid rname sc st ∈ (processOne db cnt id i o).2.2 →
      (st = .pass ↔ 50 ≤ sc)) ∧
    (∀ e : EvalData, e.is_resume ≠ some false →
      ((chatSaveStep e).2.status = .pass ↔ 50 ≤ e.fit_score)) ∧
    (∀ fit_score : Int, resumeCardStatus fit_score = .pass ↔ 50 ≤ fit_score) := by
  refine ⟨?_, ?_, ?_⟩
  · intro db cnt id i o rid rname sc st hmem
    rcases o with ⟨fetch, llm, insErr⟩
    rcases fetch with _ | r
    · simp [processOne] at hmem
    · by_cases ht : r.extracted_text.getD "" = ""
      · simp [processOne, ht] at hmem
      · rcases llm with msg | _ | p
        · simp [processOne, ht] at hmem
        · simp [processOne, ht] at hmem
        · by_cases hir : p.is_resume = some false
          · simp [processOne, ht, hir] at hmem
          · by_cases hie : insErr = true
            · simp [processOne, ht, hir, hie] at hmem
            · simp [processOne, ht, hir, hie] at hmem
              obtain ⟨-, -, hsc, hst⟩ := hmem
              subst hsc
              subst hst
              by_cases h50 : (50 : Int) ≤ p.fit_score
              · simp [ge_iff_le, h50]
              · simp [ge_iff_le, h50]
  · intro e he
    by_cases h50 : (50 : Int) ≤ e.fit_score
    · simp [chatSaveStep, he, ge_iff_le, h50]
    · simp [chatSaveStep, he, ge_iff_le, h50]
  · intro fs
    by_cases h50 : (50 : Int) ≤ fs
    · simp [resumeCardStatus, ge_iff_le, h50]
    · simp [resumeCardStatus, ge_iff_le, h50]

theorem C3_witness :
    (c3w.is_resume ≠ some false ∧
      ((chatSaveStep c3w).2.status = .pass ↔ 50 ≤ c3w.fit_score)) ∧
    (Event.result "r1" "a.pdf" 80 .pass ∈
        (processOne [] Counters.zero "r1" 0 c3wo).2.2 ∧
      (Status.pass = .pass ↔ (50 : Int) ≤ 80)) :=
  ⟨⟨by decide, C3_amended.2.1 c3w (by decide)⟩,
   ⟨by decide,
    C3_amended.1 [] Counters.zero "r1" 0 c3wo "r1" "a.pdf" 80 .pass (by decide)⟩⟩

/-! ## Claim C10 -/

/-- C10: `POST /api/bulkEvaluate` returns 400 exactly when the resume id list
is missing or empty, the criteria object is absent, or the criteria has a
falsy role together with an absent or empty skills list; any criteria the
single-evaluation endpoint accepts is accepted by the bulk endpoint, and a
criteria with a role but no job description is accepted by the bulk endpoint
while the single-evaluation endpoint rejects it. -/
theorem C10_validation :
    (∀ b os db, (∃ msg, bulkPOST b os db = .error (400, msg)) ↔
      (b.resumeIds = none ∨ b.resumeIds = some [] ∨ b.criteria = none ∨
       ∃ c, b.criteria = some c ∧ truthyStr c.role = false ∧
         c.skills.getD [] = [])) ∧
    (∀ c ids os db rid, ids ≠ [] → truthyStr rid = true →
      checkValidationError ⟨rid, some c⟩ = none →
      ∃ out, bulkPOST ⟨some ids, some c⟩ os db = .ok out) ∧
    (∃ out, bulkPOST ⟨some ["r1"], some ⟨some "Backend Engineer", some [], none⟩⟩
        [] [] = .ok out) ∧
    checkValidationError ⟨some "r1", some ⟨some "Backend Engineer", some [], none⟩⟩ =
      some (400, "All criteria fields are required") := by
  refine ⟨?_, ?_, ⟨_, rfl⟩, by decide⟩
  · intro b os db
    rcases b with ⟨ids?, c?⟩
    rcases ids? with _ | ids
    · simp [bulkPOST, bulkValidationError]
    · rcases ids with _ | ⟨id0, ids⟩
      · simp [bulkPOST, bulkValidationError]
      · rcases c? with _ | c
        · simp [bulkPOST, bulkValidationError]
        · by_cases hrole : truthyStr c.role = true
          · simp [bulkPOST, bulkValidationError, hrole]
          · by_cases hsk : c.skills.getD [] = []
            · simp [bulkPOST, bulkValidationError, hrole, hsk]
            · simp [bulkPOST, bulkValidationError, hrole, hsk]
  · intro c ids os db rid hne hrid hchk
    rcases ids with _ | ⟨id0, ids⟩
    · exact absurd rfl hne
    · have hrole : truthyStr c.role = true := by
        by_contra hr
        simp [checkValidationError, hrid, hr] at hchk
      exact ⟨bulkStream (id0 :: ids) os db,
        by simp [bulkPOST, bulkValidationError, hrole]⟩

theorem C10_witness :
    ((["r1"] : List String) ≠ [] ∧ truthyStr (some "x") = true ∧
      checkValidationError ⟨some "x", some c10wc⟩ = none ∧
      ∃ out, bulkPOST ⟨some ["r1"], some c10wc⟩ [] [] = .ok out) ∧
    (∃ msg, bulkPOST ⟨none, some c10wc⟩ [] [] = .error (400, msg)) :=
  ⟨⟨by decide, by decide, by decide,
    C10_validation.2.1 c10wc ["r1"] [] [] (some "x") (by decide) (by decide)
      (by decide)⟩,
   (C10_validation.1 ⟨none, some c10wc⟩ [] []).mpr (Or.inl rfl)⟩

/-! ## Claim C7 -/

/-- C7: the DELETE handler's response and final database state are
independent of the URL-parse outcome, the blob-storage removal outcome and
the Pinecone removal outcome; and for an existing resume id, when the two
database deletes succeed, the handler answers 200 with the success message,
no evaluation row for the resume remains, and the resume row is gone. -/
theorem C7_delete :
    (∀ db rid up se pe up2 se2 pe2 ed rd,
      deleteResumeHandler db rid ⟨up, se, ed, pe, rd⟩ =
        deleteResumeHandler db rid ⟨up2, se2, ed, pe2, rd⟩) ∧
    (∀ db rid r o, truthyStr rid = true →
      db.resumes.find? (fun x => x.id = rid.getD "") = some r →
      o.evalDeleteError = false → o.resumeDeleteError = false →
      (deleteResumeHandler db rid o).1 = (200, "Resume deleted successfully") ∧
      (deleteResumeHandler db rid o).2.evaluations.filter
        (fun e => e.resume_id = rid.getD "") = [] ∧
      (deleteResumeHandler db rid o).2.resumes.find?
        (fun x => x.id = rid.getD "") = none) := by
  constructor
  · intro db rid up se pe up2 se2 pe2 ed rd
    rfl
  · intro db rid r o hrid hfind hed hrd
    rcases o with ⟨up, se, ed, pe, rd⟩
    simp only at hed hrd
    subst hed hrd
    refine ⟨?_, ?_, ?_⟩
    · simp [deleteResumeHandler, hrid, hfind]
    · simp [deleteResumeHandler, hrid, hfind, List.filter_filter]
    · simp [deleteResumeHandler, hrid, hfind, List.find?_eq_none]

theorem C7_witness :
    (truthyStr (some "r1") = true ∧
      c7db.resumes.find? (fun x => x.id = (some "r1").getD "") = some c7r ∧
      c7o.evalDeleteError = false ∧ c7o.resumeDeleteError = false) ∧
    ((deleteResumeHandler c7db (some "r1") c7o).1 =
      (200, "Resume deleted successfully")) :=
  ⟨⟨by decide, by decide, by decide, by decide⟩,
   (C7_delete.2 c7db (some "r1") c7r c7o (by decide) (by decide) (by decide)
      (by decide)).1⟩

/-! ## Claim C8 -/

/-- C8: a string returned by `evaluateResume` is always one that passed the
`JSON.parse` validation; when the cleaned text does not parse, the typed
invalid-JSON error is raised instead; and the cleanup strips markdown fences
and extracts the brace-delimited JSON object out of surrounding prose. -/
theorem C8_json_validation :
    (∀ raw jp s, evaluateResumeResult raw jp = .ok s → jp s = true) ∧
    (∀ raw jp, jp (cleanLlm raw) = false →
      evaluateResumeResult raw jp =
        .error ("Gemini returned invalid JSON format: " ++
          (cleanLlm raw).take 200 ++ "...")) ∧
    cleanLlm "```json\n\x7b\"fit_score\": 80\x7d\n```" = "\x7b\"fit_score\": 80\x7d" ∧
    cleanLlm "Here is the result: \x7b\"a\": 1\x7d done" = "\x7b\"a\": 1\x7d" := by
  refine ⟨?_, ?_, by decide, by decide⟩
  · intro raw jp s h
    by_cases hj : jp (cleanLlm raw) = true
    · simp [evaluateResumeResult, hj] at h
      rw [← h]
      exact hj
    · simp [evaluateResumeResult, hj] at h
  · intro raw jp hj
    simp [evaluateResumeResult, hj]

theorem C8_witness :
    evaluateResumeResult c8raw c8jp = .ok "\x7b\x7d" ∧ c8jp "\x7b\x7d" = true :=
  ⟨rfl, C8_json_validation.1 c8raw c8jp "\x7b\x7d" rfl⟩

/-! ## Claim C9 -/

/-- C9: `extractText` dispatches on the lowercased extension: `pdf` always
succeeds, yielding the fallback string when the PDF library fails; `doc` and
`docx` propagate a DOCX-extraction failure; everything else returns the
buffer decoded as UTF-8. -/
theorem C9_extract_dispatch :
    (∀ p d b f, getExt f = "pdf" → extractText p d b f = .ok (extractFromPDF p)) ∧
    (∀ p d b f e, getExt f = "pdf" → p = .error e →
      extractText p d b f = .ok pdfFallbackMsg) ∧
    (∀ p d b f e, (getExt f = "doc" ∨ getExt f = "docx") → d = .error e →
      extractText p d b f = .error e) ∧
    (∀ p d b f, getExt f ≠ "pdf" → getExt f ≠ "doc" → getExt f ≠ "docx" →
      extractText p d b f = .ok b) ∧
    getExt "Resume.PDF" = "pdf" ∧ getExt "archive.tar.doc" = "doc" ∧
    getExt "notes" = "notes" := by
  refine ⟨?_, ?_, ?_, ?_, by decide, by decide, by decide⟩
  · intro p d b f h
    simp [extractText, h]
  · intro p d b f e h hp
    subst hp
    simp [extractText, h, extractFromPDF]
  · intro p d b f e h hd
    subst hd
    rcases h with h | h
    · simp [extractText, h, extractFromDocx]
    · simp [extractText, h, extractFromDocx]
  · intro p d b f h1 h2 h3
    simp [extractText, h1, h2, h3]

theorem C9_witness :
    (getExt "cv.DOCX" = "docx" ∧
      (Except.error "mammoth failed" : Except String (Option String)) =
        .error "mammoth failed") ∧
    extractText (.ok (some "pdf text")) (.error "mammoth failed") "buf" "cv.DOCX" =
      .error "mammoth failed" :=
  ⟨⟨by decide, rfl⟩,
   C9_extract_dispatch.2.2.1 (.ok (some "pdf text")) (.error "mammoth failed")
     "buf" "cv.DOCX" "mammoth failed" (Or.inr (by decide)) rfl⟩

/-! ## Claim C6: helper lemmas -/

theorem countRows_filter_ne (db : List EvalRow) (id r : String) (h : r ≠ id) :
    countRows (db.filter (fun row => row.resume_id ≠ id)) r = countRows db r := by
  unfold countRows
  induction db with
  | nil => rfl
  | cons x xs ih =>
    by_cases hx : x.resume_id = id
    · have hxr : ¬ x.resume_id = r := fun hh => h (hh.symm.trans hx)
      rw [List.filter_cons, if_neg (by simpa using hx), List.countP_cons,
        if_neg (by simpa using hxr), ih, Nat.add_zero]
    · rw [List.filter_cons, if_pos (by simpa using hx), List.countP_cons,
        List.countP_cons, ih]

theorem countRows_filter_self (db : List EvalRow) (id : String) :
    countRows (db.filter (fun row => row.resume_id ≠ id)) id = 0 := by
  unfold countRows
  rw [List.countP_eq_zero]
  intro a ha
  have := (List.mem_filter.mp ha).2
  simpa using this

theorem countRows_append (l1 l2 : List EvalRow) (id : String) :
    countRows (l1 ++ l2) id = countRows l1 id + countRows l2 id :=
  List.countP_append _ _ _

theorem countRows_singleton (x : EvalRow) (r : String) :
    countRows [x] r = if x.resume_id = r then 1 else 0 := by
  by_cases h : x.resume_id = r
  · simp [countRows, List.countP_cons, h]
  · simp [countRows, List.countP_cons, h]

/-- On the successful path, the new evaluations table is literally
"rows of other resumes" plus the freshly inserted row: delete then insert. -/
theorem processOne_success_db (db cnt id i o r p)
    (hf : o.fetch = some r) (ht : r.extracted_text.getD "" ≠ "")
    (hl : o.llm = .parsed p) (hir : p.is_resume ≠ some false)
    (hie : o.insertError = false) :
    (processOne db cnt id i o).1 =
      db.filter (fun row => row.resume_id ≠ id) ++
        [⟨id, p.fit_score, p.missing_skills, p.feedback⟩] := by
  simp [processOne, hf, ht, hl, hir, hie]

/-- `processOne` does not touch rows of other resume ids. -/
theorem processOne_db_ne (db cnt id i o r) (h : r ≠ id) :
    countRows (processOne db cnt id i o).1 r = countRows db r := by
  rcases o with ⟨fetch, llm, ie⟩
  rcases fetch with _ | rr
  · rfl
  · by_cases ht : rr.extracted_text.getD "" = ""
    · simp [processOne, ht]
    · rcases llm with msg | _ | p
      · simp [processOne, ht]
      · simp [processOne, ht]
      · by_cases hir : p.is_resume = some false
        · simp [processOne, ht, hir]
        · by_cases hie : ie = true
          · have hdb : (processOne db cnt id i ⟨some rr, .parsed p, ie⟩).1 =
                db.filter (fun row => row.resume_id ≠ id) := by
              simp [processOne, ht, hir, hie]
            rw [hdb, countRows_filter_ne _ _ _ h]
          · rw [processOne_success_db db cnt id i ⟨some rr, .parsed p, ie⟩ rr p
                rfl ht rfl hir (by simpa using hie),
              countRows_append, countRows_filter_ne _ _ _ h,
              countRows_singleton, if_neg (fun hh => h hh.symm), Nat.add_zero]

/-- A `result` event certifies the successful path of `processOne` and names
the fetched row's id. -/
theorem processOne_result_shape (db cnt id i o rid rname sc st)
    (hmem : Event.result rid rname sc st ∈ (processOne db cnt id i o).2.2) :
    ∃ r p, o.fetch = some r ∧ o.llm = .parsed p ∧ rid = r.id ∧
      r.extracted_text.getD "" ≠ "" ∧ p.is_resume ≠ some false ∧
      o.insertError = false := by
  rcases o with ⟨fetch, llm, ie⟩
  rcases fetch with _ | rr
  · simp [processOne] at hmem
  · by_cases ht : rr.extracted_text.getD "" = ""
    · simp [processOne, ht] at hmem
    · rcases llm with msg | _ | p
      · simp [processOne, ht] at hmem
      · simp [processOne, ht] at hmem
      · by_cases hir : p.is_resume = some false
        · simp [processOne, ht, hir] at hmem
        · by_cases hie : ie = true
          · simp [processOne, ht, hir, hie] at hmem
          · simp [processOne, ht, hir, hie] at hmem
            exact ⟨rr, p, rfl, rfl, hmem.1, ht, hir,
              Bool.not_eq_true ie ▸ hie⟩

/-- `bulkLoop` does not touch rows of resume ids it does not process. -/
theorem bulkLoop_db_notin : ∀ (ps : List (String × StepOracle)) db cnt i r,
    r ∉ ps.map Prod.fst →
    countRows (bulkLoop db cnt i ps).1 r = countRows db r := by
  intro ps
  induction ps with
  | nil => intro db cnt i r _; rfl
  | cons q rest ih =>
    intro db cnt i r h
    rcases q with ⟨id, o⟩
    simp only [List.map_cons, List.mem_cons, not_or] at h
    have hdb : (bulkLoop db cnt i ((id, o) :: rest)).1 =
        (bulkLoop (processOne db cnt id i o).1
          (processOne db cnt id i o).2.1 (i + 1) rest).1 := rfl
    rw [hdb, ih _ _ _ _ h.2, processOne_db_ne _ _ _ _ _ _ h.1]

/-- With pairwise-distinct resume ids and fetches that return the requested
row, any resume id named by a `result` event ends with exactly one stored
evaluation row. -/
theorem bulkLoop_unique : ∀ (ps : List (String × StepOracle)) db cnt i id,
    (ps.map Prod.fst).Nodup →
    (∀ q ∈ ps, ∀ r, q.2.fetch = some r → r.id = q.1) →
    (∃ ev ∈ (bulkLoop db cnt i ps).2.2, eventResultId ev = some id) →
    countRows (bulkLoop db cnt i ps).1 id = 1 := by
  intro ps
  induction ps with
  | nil =>
    intro db cnt i id _ _ hex
    rcases hex with ⟨ev, hev, _⟩
    simp [bulkLoop] at hev
  | cons q rest ih =>
    rcases q with ⟨qid, o⟩
    intro db cnt i id hnd hfetch hex
    have hstep : (bulkLoop db cnt i ((qid, o) :: rest)).2.2 =
        (processOne db cnt qid i o).2.2 ++
          (bulkLoop (processOne db cnt qid i o).1
            (processOne db cnt qid i o).2.1 (i + 1) rest).2.2 := rfl
    have hdb : (bulkLoop db cnt i ((qid, o) :: rest)).1 =
        (bulkLoop (processOne db cnt qid i o).1
          (processOne db cnt qid i o).2.1 (i + 1) rest).1 := rfl
    rcases hex with ⟨ev, hev, hid⟩
    rw [hstep] at hev
    rcases List.mem_append.mp hev with h1 | h2
    · rcases ev with _ | ⟨rid, rname, sc, st⟩ | _ | _ <;>
        simp only [eventResultId, Option.some.injEq, reduceCtorEq] at hid
      obtain ⟨r, p, hf, hl, hridr, ht, hir, hie⟩ :=
        processOne_result_shape _ _ _ _ _ _ _ _ _ h1
      have hqid : r.id = qid := hfetch (qid, o) (List.mem_cons_self _ _) r hf
      have hidq : id = qid := by rw [← hid, hridr, hqid]
      subst hidq
      rw [hdb, bulkLoop_db_notin rest _ _ _ _ (List.nodup_cons.mp hnd).1,
        processOne_success_db db cnt id i o r p hf ht hl hir hie,
        countRows_append, countRows_filter_self, countRows_singleton]
      simp
    · rw [hdb]
      exact ih _ _ _ _ (List.nodup_cons.mp hnd).2
        (fun q hq => hfetch q (List.mem_cons_of_mem _ hq)) ⟨ev, h2, hid⟩

/-- The saved row of `chatSaveStep` belongs to the entry's resume id. -/
theorem chatSaveStep_row_id (e : EvalData) :
    (chatSaveStep e).1.resume_id = e.resumeId := rfl

/-- The result entry of `chatSaveStep` names the entry's resume id. -/
theorem chatSaveStep_result_id (e : EvalData) :
    (chatSaveStep e).2.resumeId = e.resumeId := rfl

/-- `chatSaveLoop` does not touch rows of resume ids it does not process. -/
theorem chatSaveLoop_db_notin : ∀ (entries : List (EvalData × Bool)) known db r,
    r ∉ entries.map (fun q => q.1.resumeId) →
    countRows (chatSaveLoop known db entries).1 r = countRows db r := by
  intro entries
  induction entries with
  | nil => intro known db r _; rfl
  | cons q rest ih =>
    intro known db r h
    rcases q with ⟨e, thr⟩
    simp only [List.map_cons, List.mem_cons, not_or] at h
    by_cases hc : known.contains e.resumeId
    · rcases thr with _ | _
      · simp only [chatSaveLoop, hc, if_true, Bool.false_eq_true, if_false]
        rw [ih _ _ _ h.2, countRows_append, countRows_filter_ne _ _ _ h.1,
          countRows_singleton, chatSaveStep_row_id,
          if_neg (fun hh => h.1 hh.symm), Nat.add_zero]
      · simp only [chatSaveLoop, hc, if_true]
        rw [ih _ _ _ h.2, countRows_filter_ne _ _ _ h.1]
    · simp only [chatSaveLoop, hc, Bool.false_eq_true, if_false]
      exact ih _ _ _ h.2

/-- With pairwise-distinct entry ids, every resume id that appears among the
returned chat results ends with exactly one stored evaluation row. -/
theorem chatSaveLoop_unique : ∀ (entries : List (EvalData × Bool)) known db id,
    (entries.map (fun q => q.1.resumeId)).Nodup →
    (∃ res ∈ (chatSaveLoop known db entries).2, res.resumeId = id) →
    countRows (chatSaveLoop known db entries).1 id = 1 := by
  intro entries
  induction entries with
  | nil =>
    intro known db id _ hex
    rcases hex with ⟨res, hres, _⟩
    simp [chatSaveLoop] at hres
  | cons q rest ih =>
    rcases q with ⟨e, thr⟩
    intro known db id hnd hex
    by_cases hc : known.contains e.resumeId
    · rcases thr with _ | _
      · rcases hex with ⟨res, hres, hid⟩
        simp only [chatSaveLoop, hc, if_true, Bool.false_eq_true, if_false,
          List.mem_cons] at hres
        rcases hres with hres | hres
        · subst hres
          rw [chatSaveStep_result_id] at hid
          subst hid
          simp only [chatSaveLoop, hc, if_true, Bool.false_eq_true, if_false]
          rw [chatSaveLoop_db_notin rest _ _ _ (List.nodup_cons.mp hnd).1,
            countRows_append, countRows_filter_self, countRows_singleton,
            chatSaveStep_row_id]
          simp
        · simp only [chatSaveLoop, hc, if_true, Bool.false_eq_true, if_false]
          exact ih _ _ _ (List.nodup_cons.mp hnd).2 ⟨res, hres, hid⟩
      · simp only [chatSaveLoop, hc, if_true] at hex ⊢
        exact ih _ _ _ (List.nodup_cons.mp hnd).2 hex
    · simp only [chatSaveLoop, hc, Bool.false_eq_true, if_false] at hex ⊢
      exact ih _ _ _ (List.nodup_cons.mp hnd).2 hex

/-! ## Claim C6 -/

/-- C6: in the bulk flow the successful path replaces the stored evaluations
of the processed resume id (filter out, then append the new row), and after
the whole loop any resume id with a `result` event has exactly one stored
row (for pairwise-distinct requested ids); likewise, the chat flows
delete-then-insert per saved entry and leave exactly one row per reported
resume id. -/
theorem C6_replace_not_append :
    (∀ db cnt id i o r p, o.fetch = some r → r.extracted_text.getD "" ≠ "" →
      o.llm = .parsed p → p.is_resume ≠ some false → o.insertError = false →
      (processOne db cnt id i o).1 =
        db.filter (fun row => row.resume_id ≠ id) ++
          [⟨id, p.fit_score, p.missing_skills, p.feedback⟩]) ∧
    (∀ ps db cnt i id, (ps.map Prod.fst).Nodup →
      (∀ q ∈ ps, ∀ r, q.2.fetch = some r → r.id = q.1) →
      (∃ ev ∈ (bulkLoop db cnt i ps).2.2, eventResultId ev = some id) →
      countRows (bulkLoop db cnt i ps).1 id = 1) ∧
    (∀ known db e rest, known.contains e.resumeId = true →
      chatSaveLoop known db ((e, false) :: rest) =
        ((chatSaveLoop known
            (db.filter (fun row => row.resume_id ≠ e.resumeId) ++
              [(chatSaveStep e).1]) rest).1,
         (chatSaveStep e).2 ::
           (chatSaveLoop known
             (db.filter (fun row => row.resume_id ≠ e.resumeId) ++
               [(chatSaveStep e).1]) rest).2)) ∧
    (∀ entries known db id, (entries.map (fun q => q.1.resumeId)).Nodup →
      (∃ res ∈ (chatSaveLoop known db entries).2, res.resumeId = id) →
      countRows (chatSaveLoop known db entries).1 id = 1) := by
  refine ⟨processOne_success_db, bulkLoop_unique, ?_, chatSaveLoop_unique⟩
  intro known db e rest hc
  simp only [chatSaveLoop, hc, if_true, Bool.false_eq_true, if_false]

theorem C6_witness :
    ((c6ps.map Prod.fst).Nodup ∧
      (∀ q ∈ c6ps, ∀ r, q.2.fetch = some r → r.id = q.1) ∧
      (∃ ev ∈ (bulkLoop c6db Counters.zero 0 c6ps).2.2,
        eventResultId ev = some "r1") ∧
      countRows (bulkLoop c6db Counters.zero 0 c6ps).1 "r1" = 1) ∧
    (([(c6e, false)].map (fun q => q.1.resumeId)).Nodup ∧
      (∃ res ∈ (chatSaveLoop ["r9"] c6db [(c6e, false)]).2,
        res.resumeId = "r9") ∧
      countRows (chatSaveLoop ["r9"] c6db [(c6e, false)]).1 "r9" = 1) := by
  have hfetch : ∀ q ∈ c6ps, ∀ r, q.2.fetch = some r → r.id = q.1 := by
    intro q hq r hr
    simp only [c6ps, List.mem_singleton] at hq
    subst hq
    simp only [c6o] at hr
    cases hr
    rfl
  refine ⟨⟨by decide, hfetch, by decide, ?_⟩, ⟨by decide, by decide, ?_⟩⟩
  · exact C6_replace_not_append.2.1 c6ps c6db Counters.zero 0 "r1" (by decide)
      hfetch (by decide)
  · exact C6_replace_not_append.2.2.2 [(c6e, false)] ["r9"] c6db "r9"
      (by decide) (by decide)

/-! ## Claims C4 and C5: string and split lemmas -/

theorem strMk_append (a b : List Char) :
    (⟨a⟩ : String) ++ (⟨b⟩ : String) = ⟨a ++ b⟩ := rfl

theorem strAppend_assoc (a b c : String) : a ++ b ++ c = a ++ (b ++ c) := by
  obtain ⟨la⟩ := a
  obtain ⟨lb⟩ := b
  obtain ⟨lc⟩ := c
  rw [strMk_append, strMk_append, strMk_append, strMk_append,
    List.append_assoc]

theorem joinSp_cons (s : String) (l : List String) (h : l ≠ []) :
    joinSp (s :: l) = s ++ " " ++ joinSp l := by
  cases l with
  | nil => exact absurd rfl h
  | cons t rest => rfl

theorem joinSp_append (a b : List String) (ha : a ≠ []) (hb : b ≠ []) :
    joinSp (a ++ b) = joinSp a ++ " " ++ joinSp b := by
  induction a with
  | nil => exact absurd rfl ha
  | cons x xs ih =>
    cases xs with
    | nil =>
      rw [List.singleton_append, joinSp_cons x b hb]
      rfl
    | cons y ys =>
      rw [List.cons_append, joinSp_cons x (y :: ys ++ b) (by simp),
        joinSp_cons x (y :: ys) (by simp), ih (by simp)]
      simp [strAppend_assoc]

theorem joinSp_append_singleton (l : List String) (s : String) (h : l ≠ []) :
    joinSp (l ++ [s]) = joinSp l ++ " " ++ s := by
  rw [joinSp_append l [s] h (by simp)]
  rfl

theorem splitWsAux_ne_nil (l cur : List Char) : splitWsAux cur l ≠ [] := by
  induction l generalizing cur with
  | nil => simp [splitWsAux]
  | cons c cs ih =>
    by_cases hw : isWsChar c = true
    · simp [splitWsAux, hw]
    · simpa [splitWsAux, hw] using ih (c :: cur)

theorem splitSentAux_ne_nil (l cur : List Char) : splitSentAux cur l ≠ [] := by
  induction l generalizing cur with
  | nil => simp [splitSentAux]
  | cons c cs ih =>
    by_cases hb : sentBreakHere c cur = true
    · simp [splitSentAux, hb]
    · simpa [splitSentAux, hb] using ih (c :: cur)

theorem splitWords_ne_nil (s : String) : splitWords s ≠ [] := by
  unfold splitWords
  simpa using splitWsAux_ne_nil s.data []

theorem joinSp_splitWsAux (l : List Char) : ∀ cur, onlySpaceList l →
    joinSp ((splitWsAux cur l).map (fun x => (⟨x⟩ : String))) =
      ⟨cur.reverse ++ l⟩ := by
  induction l with
  | nil =>
    intro cur _
    simp [splitWsAux, joinSp]
  | cons c cs ih =>
    intro cur h
    have hcs : onlySpaceList cs := fun x hx hw => h x (List.mem_cons_of_mem _ hx) hw
    by_cases hw : isWsChar c = true
    · have hc : c = ' ' := h c (List.mem_cons_self _ _) hw
      rw [show splitWsAux cur (c :: cs) = cur.reverse :: splitWsAux [] cs by
        simp [splitWsAux, hw]]
      rw [List.map_cons,
        joinSp_cons _ _ (by simpa using splitWsAux_ne_nil cs []),
        ih [] hcs]
      rw [show (" " : String) = (⟨[' ']⟩ : String) from rfl, strMk_append,
        strMk_append]
      rw [hc]
      simp
    · rw [show splitWsAux cur (c :: cs) = splitWsAux (c :: cur) cs by
        simp [splitWsAux, hw]]
      rw [ih (c :: cur) hcs]
      simp

theorem joinSp_splitWords (s : String) (h : onlySpaceList s.data) :
    joinSp (splitWords s) = s := by
  obtain ⟨l⟩ := s
  unfold splitWords
  rw [joinSp_splitWsAux l [] h]
  rfl

theorem joinSp_splitSentAux (l : List Char) : ∀ cur, onlySpaceList l →
    joinSp ((splitSentAux cur l).map (fun x => (⟨x⟩ : String))) =
      ⟨cur.reverse ++ l⟩ := by
  induction l with
  | nil =>
    intro cur _
    simp [splitSentAux, joinSp]
  | cons c cs ih =>
    intro cur h
    have hcs : onlySpaceList cs := fun x hx hw => h x (List.mem_cons_of_mem _ hx) hw
    by_cases hb : sentBreakHere c cur = true
    · have hcw : isWsChar c = true := by
        have := hb
        simp only [sentBreakHere, Bool.and_eq_true] at this
        exact this.1
      have hc : c = ' ' := h c (List.mem_cons_self _ _) hcw
      rw [show splitSentAux cur (c :: cs) = cur.reverse :: splitSentAux [] cs by
        simp [splitSentAux, hb]]
      rw [List.map_cons,
        joinSp_cons _ _ (by simpa using splitSentAux_ne_nil cs []),
        ih [] hcs]
      rw [show (" " : String) = (⟨[' ']⟩ : String) from rfl, strMk_append,
        strMk_append]
      rw [hc]
      simp
    · rw [show splitSentAux cur (c :: cs) = splitSentAux (c :: cur) cs by
        simp [splitSentAux, hb]]
      rw [ih (c :: cur) hcs]
      simp

theorem joinSp_splitSentences (s : String) (h : onlySpaceList s.data) :
    joinSp (splitSentences s) = s := by
  obtain ⟨l⟩ := s
  unfold splitSentences
  rw [joinSp_splitSentAux l [] h]
  rfl

theorem splitSentAux_chars (l : List Char) : ∀ cur p, p ∈ splitSentAux cur l →
    ∀ c ∈ p, c ∈ cur ∨ c ∈ l := by
  induction l with
  | nil =>
    intro cur p hp c hc
    simp [splitSentAux] at hp
    subst hp
    exact Or.inl (List.mem_reverse.mp hc)
  | cons ch cs ih =>
    intro cur p hp c hc
    by_cases hb : sentBreakHere ch cur = true
    · rw [show splitSentAux cur (ch :: cs) = cur.reverse :: splitSentAux [] cs by
        simp [splitSentAux, hb]] at hp
      rcases List.mem_cons.mp hp with hp | hp
      · subst hp
        exact Or.inl (List.mem_reverse.mp hc)
      · rcases ih [] p hp c hc with hcc | hcc
        · simp at hcc
        · exact Or.inr (List.mem_cons_of_mem _ hcc)
    · rw [show splitSentAux cur (ch :: cs) = splitSentAux (ch :: cur) cs by
        simp [splitSentAux, hb]] at hp
      rcases ih (ch :: cur) p hp c hc with hcc | hcc
      · rcases List.mem_cons.mp hcc with hcc | hcc
        · subst hcc
          exact Or.inr (List.mem_cons_self _ _)
        · exact Or.inl hcc
      · exact Or.inr (List.mem_cons_of_mem _ hcc)

theorem collapseWs_onlySpace : ∀ (b : Bool) (l : List Char),
    onlySpaceList (collapseWs b l) := by
  intro b l
  induction l generalizing b with
  | nil => intro c hc; simp [collapseWs] at hc
  | cons c cs ih =>
    intro x hx hwx
    by_cases hw : isWsChar c = true
    · rcases b with _ | _
      · rw [show collapseWs false (c :: cs) = ' ' :: collapseWs true cs by
          simp [collapseWs, hw]] at hx
        rcases List.mem_cons.mp hx with hx | hx
        · exact hx
        · exact ih true x hx hwx
      · rw [show collapseWs true (c :: cs) = collapseWs true cs by
          simp [collapseWs, hw]] at hx
        exact ih true x hx hwx
    · rw [show collapseWs b (c :: cs) = c :: collapseWs false cs by
        simp [collapseWs, hw]] at hx
      rcases List.mem_cons.mp hx with hx | hx
      · subst hx
        exact absurd hwx hw
      · exact ih false x hx hwx

theorem normalizeText_onlySpace (s : String) :
    onlySpaceList (normalizeText s).data :=
  collapseWs_onlySpace false (trimChars s.data)

theorem sentences_onlySpace (text s : String)
    (hs : s ∈ splitSentences (normalizeText text)) : onlySpaceList s.data := by
  unfold splitSentences at hs
  rcases List.mem_map.mp hs with ⟨p, hp, hmk⟩
  intro c hc hw
  have : c ∈ p := by
    rw [← hmk] at hc
    exact hc
  rcases splitSentAux_chars _ [] p hp c this with hcc | hcc
  · simp at hcc
  · exact normalizeText_onlySpace text c hcc hw

/-! ### Instrumented chunker: fresh content and rendering -/

/-- The fresh items of the word-loop's pushed chunks, plus the final
wordChunk's fresh items, are exactly the prior fresh items and the words
still to be consumed. -/
theorem wordLoopI_fresh (tc : String → Nat) (m k : Nat) :
    ∀ (ws : List String) (wc : Chunk) (cnt : Nat),
    ((wordLoopI tc m k ws wc cnt).1.map Prod.snd).flatten ++
      (wordLoopI tc m k ws wc cnt).2.1.2 = wc.2 ++ ws := by
  intro ws
  induction ws with
  | nil => intro wc cnt; simp [wordLoopI]
  | cons w ws ih =>
    intro wc cnt
    by_cases hgt : cnt + tc w > m
    · simp only [wordLoopI, hgt, if_pos]
      rw [List.map_cons, List.flatten_cons, List.append_assoc, ih]
      simp
    · simp only [wordLoopI, hgt, if_neg, ite_false]
      rw [ih]
      simp

/-- All words of an oversized sentence survive, in order, as the fresh items
of its word chunks. -/
theorem wordChunksOfI_fresh (tc : String → Nat) (m k : Nat) (s : String) :
    ((wordChunksOfI tc m k s).map Prod.snd).flatten = splitWords s := by
  unfold wordChunksOfI
  have h := wordLoopI_fresh tc m k (splitWords s) ([], []) 0
  by_cases hfin :
      ((wordLoopI tc m k (splitWords s) ([], []) 0).2.1.1 ++
        (wordLoopI tc m k (splitWords s) ([], []) 0).2.1.2).length > 0
  · simp only [hfin, if_pos]
    rw [List.map_append, List.flatten_append]
    simpa using h
  · simp only [hfin, if_neg, ite_false]
    have h2 : (wordLoopI tc m k (splitWords s) ([], []) 0).2.1.2 = [] := by
      have := Nat.eq_zero_of_not_pos hfin
      rcases List.append_eq_nil.mp (List.length_eq_zero.mp this) with ⟨-, h2⟩
      exact h2
    rw [h2, List.append_nil] at h
    simpa using h

/-- The fresh items of a flushed chunk. -/
theorem flushFresh (c : Chunk) :
    (((if (c.1 ++ c.2).length > 0 then [c] else []) : List Chunk).map
      Prod.snd).flatten = c.2 := by
  by_cases h : (c.1 ++ c.2).length > 0
  · rw [if_pos h]; simp
  · rw [if_neg h]
    have h2 : c.2 = [] :=
      (List.append_eq_nil.mp
        (List.length_eq_zero.mp (Nat.eq_zero_of_not_pos h))).2
    simp [h2]

/-- Rendering a flushed chunk. -/
theorem flushRender (c : Chunk) :
    (if (c.1 ++ c.2).length > 0 then [joinSp (c.1 ++ c.2)] else []) =
      ((if (c.1 ++ c.2).length > 0 then [c] else []) : List Chunk).map
        renderChunk := by
  by_cases h : (c.1 ++ c.2).length > 0
  · rw [if_pos h, if_pos h]; rfl
  · rw [if_neg h, if_neg h]; rfl

/-- The fresh items of all chunks are the sentences, each oversized sentence
replaced by its words. -/
theorem sentLoopI_fresh (tc : String → Nat) (m k : Nat) :
    ∀ (ss : List String) (cur : Chunk) (cnt : Nat),
    ((sentLoopI tc m k ss cur cnt).map Prod.snd).flatten =
      cur.2 ++ (ss.map (fun s => if tc s > m then splitWords s else [s])).flatten := by
  intro ss
  induction ss with
  | nil =>
    intro cur cnt
    simp only [sentLoopI]
    rw [flushFresh]
    simp
  | cons s ss ih =>
    intro cur cnt
    by_cases h1 : tc s > m
    · simp only [sentLoopI, h1, if_pos]
      rw [List.map_append, List.map_append, List.flatten_append,
        List.flatten_append, wordChunksOfI_fresh, ih, flushFresh]
      simp [h1]
    · by_cases h2 : cnt + tc s > m
      · simp only [sentLoopI, h1, if_neg, ite_false, h2, if_pos]
        rw [List.map_cons, List.flatten_cons, ih]
        simp [h1]
      · simp only [sentLoopI, h1, if_neg, ite_false, h2]
        rw [ih]
        simp [h1]

/-- Rendering the instrumented word loop recovers the plain word loop. -/
theorem wordLoopI_render (tc : String → Nat) (m k : Nat) :
    ∀ (ws : List String) (wc : Chunk) (cnt : Nat),
    wordLoop tc m k ws (wc.1 ++ wc.2) cnt =
      ((wordLoopI tc m k ws wc cnt).1.map renderChunk,
       (wordLoopI tc m k ws wc cnt).2.1.1 ++ (wordLoopI tc m k ws wc cnt).2.1.2,
       (wordLoopI tc m k ws wc cnt).2.2) := by
  intro ws
  induction ws with
  | nil => intro wc cnt; rfl
  | cons w ws ih =>
    intro wc cnt
    by_cases hgt : cnt + tc w > m
    · simp only [wordLoop, wordLoopI, hgt, if_pos]
      rw [show ovSlice k (wc.1 ++ wc.2) ++ [w] =
          (ovSlice k (wc.1 ++ wc.2), [w]).1 ++ (ovSlice k (wc.1 ++ wc.2), [w]).2
          from rfl,
        ih (ovSlice k (wc.1 ++ wc.2), [w])]
      rfl
    · simp only [wordLoop, wordLoopI, hgt, if_neg, ite_false]
      rw [show (wc.1 ++ wc.2) ++ [w] = wc.1 ++ (wc.2 ++ [w]) from
          List.append_assoc _ _ _,
        show wc.1 ++ (wc.2 ++ [w]) = (wc.1, wc.2 ++ [w]).1 ++ (wc.1, wc.2 ++ [w]).2
          from rfl,
        ih (wc.1, wc.2 ++ [w])]

/-- Rendering the instrumented word chunks recovers the plain word chunks. -/
theorem wordChunksOfI_render (tc : String → Nat) (m k : Nat) (s : String) :
    wordChunksOf tc m k s = (wordChunksOfI tc m k s).map renderChunk := by
  have h := wordLoopI_render tc m k (splitWords s) ([], []) 0
  dsimp only [List.nil_append] at h
  unfold wordChunksOf wordChunksOfI
  rw [h]
  dsimp only
  by_cases hfin :
      ((wordLoopI tc m k (splitWords s) ([], []) 0).2.1.1 ++
        (wordLoopI tc m k (splitWords s) ([], []) 0).2.1.2).length > 0
  · rw [if_pos hfin, if_pos hfin, List.map_append]
    rfl
  · rw [if_neg hfin, if_neg hfin]
    simp

/-- Rendering the instrumented sentence loop recovers the plain loop. -/
theorem sentLoopI_render (tc : String → Nat) (m k : Nat) :
    ∀ (ss : List String) (cur : Chunk) (cnt : Nat),
    sentLoop tc m k ss (cur.1 ++ cur.2) cnt =
      (sentLoopI tc m k ss cur cnt).map renderChunk := by
  intro ss
  induction ss with
  | nil =>
    intro cur cnt
    simp only [sentLoop, sentLoopI]
    exact flushRender cur
  | cons s ss ih =>
    intro cur cnt
    by_cases h1 : tc s > m
    · have ih0 := ih ([], []) 0
      dsimp only [List.nil_append] at ih0
      simp only [sentLoop, sentLoopI, h1, if_pos]
      rw [List.map_append, List.map_append, flushRender cur,
        wordChunksOfI_render, ih0]
    · by_cases h2 : cnt + tc s > m
      · simp only [sentLoop, sentLoopI, h1, if_neg, ite_false, h2, if_pos]
        rw [show sliceLast2 (cur.1 ++ cur.2) ++ [s] =
            (sliceLast2 (cur.1 ++ cur.2), [s]).1 ++
              (sliceLast2 (cur.1 ++ cur.2), [s]).2 from rfl,
          ih (sliceLast2 (cur.1 ++ cur.2), [s])]
        rfl
      · simp only [sentLoop, sentLoopI, h1, if_neg, ite_false, h2]
        rw [show (cur.1 ++ cur.2) ++ [s] = cur.1 ++ (cur.2 ++ [s]) from
            List.append_assoc _ _ _,
          show cur.1 ++ (cur.2 ++ [s]) =
            (cur.1, cur.2 ++ [s]).1 ++ (cur.1, cur.2 ++ [s]).2 from rfl,
          ih (cur.1, cur.2 ++ [s])]

/-- `chunkText` is the rendering of the instrumented chunker. -/
theorem chunkText_render (tc : String → Nat) (m o : Nat) (text : String) :
    chunkText tc m o text = (chunkTextI tc m o text).map renderChunk :=
  sentLoopI_render tc m ((o + 9) / 10)
    (splitSentences (normalizeText text)) ([], []) 0

/-- Joining a flattened per-element split recovers the join, when each
element's split is non-empty and joins back to the element. -/
theorem joinSp_flatten_map (ss : List String) (f : String → List String) :
    (∀ s ∈ ss, joinSp (f s) = s ∧ f s ≠ []) →
    joinSp ((ss.map f).flatten) = joinSp ss := by
  induction ss with
  | nil => intro _; rfl
  | cons s ss ih =>
    intro h
    rw [List.map_cons, List.flatten_cons]
    rcases ss with _ | ⟨t, ts⟩
    · simpa using (h s (List.mem_cons_self _ _)).1
    · have hfs := h s (List.mem_cons_self _ _)
      have hflat_ne : (((t :: ts).map f).flatten) ≠ [] := by
        rw [List.map_cons, List.flatten_cons]
        intro hc
        rcases List.append_eq_nil.mp hc with ⟨h1, -⟩
        exact (h t (by simp)).2 h1
      rw [joinSp_append _ _ hfs.2 hflat_ne, hfs.1,
        ih (fun x hx => h x (List.mem_cons_of_mem _ hx)),
        joinSp_cons s (t :: ts) (by simp)]

/-! ## Claim C5 -/

/-- C5: `chunkText` renders the instrumented chunker, and joining the fresh
(non-overlap) items of all chunks in order reconstructs exactly the
normalized input text (trimmed, whitespace runs collapsed to single spaces).
Removing each chunk's manufactured overlap prefix `p.1` from its text
`joinSp (p.1 ++ p.2)` leaves `joinSp p.2`, and these concatenate to the
normalized text. -/
theorem C5_reconstruction (tc : String → Nat) (maxTokens overlap : Nat)
    (text : String) :
    chunkText tc maxTokens overlap text =
      (chunkTextI tc maxTokens overlap text).map renderChunk ∧
    joinSp (((chunkTextI tc maxTokens overlap text).map Prod.snd).flatten) =
      normalizeText text := by
  refine ⟨chunkText_render tc maxTokens overlap text, ?_⟩
  unfold chunkTextI
  rw [sentLoopI_fresh]
  dsimp only
  rw [List.nil_append,
    joinSp_flatten_map (splitSentences (normalizeText text)) _ ?_,
    joinSp_splitSentences _ (normalizeText_onlySpace text)]
  intro s hs
  by_cases hb : tc s > maxTokens
  · rw [if_pos hb]
    exact ⟨joinSp_splitWords s (sentences_onlySpace text s hs),
      splitWords_ne_nil s⟩
  · rw [if_neg hb]
    exact ⟨rfl, by simp⟩

/-! ### Token-count bounds for the chunker -/

/-- Appending one item to a joined list costs at most its own token count,
for a subadditive token counter. -/
theorem tc_joinSp_append (tc : String → Nat)
    (hsub : ∀ a b, tc (a ++ " " ++ b) ≤ tc a + tc b) (hempty : tc "" = 0)
    (l : List String) (s : String) :
    tc (joinSp (l ++ [s])) ≤ tc (joinSp l) + tc s := by
  rcases l with _ | ⟨x, xs⟩
  · rw [List.nil_append]
    have h0 : tc (joinSp []) = 0 := hempty
    rw [h0, Nat.zero_add]
    exact Nat.le_refl (tc s)
  · rw [joinSp_append_singleton _ _ (by simp)]
    exact hsub _ _

theorem sliceLast2_eq_nil (l : List String) (h : sliceLast2 l = []) : l = [] := by
  unfold sliceLast2 at h
  have hle := List.drop_eq_nil_iff.mp h
  have hlen : l.length = 0 := by omega
  exact List.length_eq_zero.mp hlen

/-- Invariant preservation through the word loop: every chunk it pushes, and
the final word chunk, either carries overlap, contains an oversized word, or
fits the budget. -/
theorem wordLoopI_bound (tc : String → Nat) (m k : Nat)
    (hsub : ∀ a b, tc (a ++ " " ++ b) ≤ tc a + tc b) (hempty : tc "" = 0) :
    ∀ (ws : List String) (wc : Chunk) (cnt : Nat),
    (wc.1 = [] → (tc (joinSp wc.2) ≤ cnt ∧ cnt ≤ m) ∨ ∃ w ∈ wc.2, m < tc w) →
    (∀ p ∈ (wordLoopI tc m k ws wc cnt).1,
      p.1 ≠ [] ∨ (∃ w ∈ p.1 ++ p.2, m < tc w) ∨ tc (renderChunk p) ≤ m) ∧
    ((wordLoopI tc m k ws wc cnt).2.1.1 = [] →
      (tc (joinSp (wordLoopI tc m k ws wc cnt).2.1.2) ≤
          (wordLoopI tc m k ws wc cnt).2.2 ∧
        (wordLoopI tc m k ws wc cnt).2.2 ≤ m) ∨
      ∃ w ∈ (wordLoopI tc m k ws wc cnt).2.1.2, m < tc w) := by
  intro ws
  induction ws with
  | nil =>
    intro wc cnt hInv
    constructor
    · intro p hp
      simp [wordLoopI] at hp
    · simpa [wordLoopI] using hInv
  | cons w ws ih =>
    intro wc cnt hInv
    by_cases hgt : cnt + tc w > m
    · have hNewInv : ((ovSlice k (wc.1 ++ wc.2), [w]) : Chunk).1 = [] →
          (tc (joinSp ((ovSlice k (wc.1 ++ wc.2), [w]) : Chunk).2) ≤
              tc (joinSp (ovSlice k (wc.1 ++ wc.2) ++ [w])) ∧
            tc (joinSp (ovSlice k (wc.1 ++ wc.2) ++ [w])) ≤ m) ∨
          ∃ x ∈ ((ovSlice k (wc.1 ++ wc.2), [w]) : Chunk).2, m < tc x := by
        intro hov
        dsimp only at hov ⊢
        rw [hov, List.nil_append]
        by_cases hw : m < tc w
        · exact Or.inr ⟨w, by simp, hw⟩
        · exact Or.inl ⟨Nat.le_refl _, Nat.le_of_not_lt hw⟩
      obtain ⟨ihOk, ihInv⟩ := ih (ovSlice k (wc.1 ++ wc.2), [w])
        (tc (joinSp (ovSlice k (wc.1 ++ wc.2) ++ [w]))) hNewInv
      simp only [wordLoopI, hgt, if_pos]
      constructor
      · intro p hp
        rcases List.mem_cons.mp hp with hp | hp
        · rw [hp]
          by_cases hwc1 : wc.1 = []
          · rcases hInv hwc1 with ⟨hb, hcm⟩ | hex
            · right; right
              unfold renderChunk
              rw [hwc1, List.nil_append]
              exact le_trans hb hcm
            · rcases hex with ⟨x, hx, hxt⟩
              exact Or.inr (Or.inl ⟨x, List.mem_append.mpr (Or.inr hx), hxt⟩)
          · exact Or.inl hwc1
        · exact ihOk p hp
      · exact ihInv
    · simp only [wordLoopI, hgt, if_neg, ite_false]
      apply ih
      intro h1
      rcases hInv h1 with ⟨hb, hcm⟩ | hex
      · left
        constructor
        · exact le_trans (tc_joinSp_append tc hsub hempty _ _)
            (Nat.add_le_add_right hb _)
        · exact Nat.le_of_not_lt hgt
      · rcases hex with ⟨x, hx, hxt⟩
        exact Or.inr ⟨x, List.mem_append.mpr (Or.inl hx), hxt⟩

/-- Every word chunk of an oversized sentence carries overlap, contains an
oversized word, or fits the budget. -/
theorem wordChunksOfI_bound (tc : String → Nat) (m k : Nat)
    (hsub : ∀ a b, tc (a ++ " " ++ b) ≤ tc a + tc b) (hempty : tc "" = 0)
    (s : String) :
    ∀ p ∈ wordChunksOfI tc m k s,
      p.1 ≠ [] ∨ (∃ w ∈ p.1 ++ p.2, m < tc w) ∨ tc (renderChunk p) ≤ m := by
  obtain ⟨hOk, hInv⟩ := wordLoopI_bound tc m k hsub hempty (splitWords s)
    ([], []) 0 (fun _ => Or.inl ⟨Nat.le_of_eq hempty, Nat.zero_le m⟩)
  intro p hp
  unfold wordChunksOfI at hp
  rcases List.mem_append.mp hp with hp | hp
  · exact hOk p hp
  · by_cases hfin :
        ((wordLoopI tc m k (splitWords s) ([], []) 0).2.1.1 ++
          (wordLoopI tc m k (splitWords s) ([], []) 0).2.1.2).length > 0
    · rw [if_pos hfin] at hp
      have hpe := List.mem_singleton.mp hp
      subst hpe
      by_cases hfc : (wordLoopI tc m k (splitWords s) ([], []) 0).2.1.1 = []
      · rcases hInv hfc with ⟨hb, hcm⟩ | hex
        · right; right
          unfold renderChunk
          rw [hfc, List.nil_append]
          exact le_trans hb hcm
        · rcases hex with ⟨x, hx, hxt⟩
          exact Or.inr (Or.inl ⟨x, List.mem_append.mpr (Or.inr hx), hxt⟩)
      · exact Or.inl hfc
    · rw [if_neg hfin] at hp
      simp at hp

/-- A flushed current chunk carries overlap or fits the budget. -/
theorem flushOkLemma (tc : String → Nat) (m : Nat) (cur : Chunk) (cnt : Nat)
    (hInv : cur.1 = [] → tc (joinSp cur.2) ≤ cnt ∧ cnt ≤ m) :
    ∀ p ∈ ((if (cur.1 ++ cur.2).length > 0 then [cur] else []) : List Chunk),
      p.1 ≠ [] ∨ (∃ w ∈ p.1 ++ p.2, m < tc w) ∨ tc (renderChunk p) ≤ m := by
  intro p hp
  by_cases hfl : (cur.1 ++ cur.2).length > 0
  · rw [if_pos hfl] at hp
    have hpc := List.mem_singleton.mp hp
    rw [hpc]
    by_cases hc1 : cur.1 = []
    · right; right
      unfold renderChunk
      rw [hc1, List.nil_append]
      exact le_trans (hInv hc1).1 (hInv hc1).2
    · exact Or.inl hc1
  · rw [if_neg hfl] at hp
    simp at hp

/-- Invariant preservation through the sentence loop. -/
theorem sentLoopI_bound (tc : String → Nat) (m k : Nat)
    (hsub : ∀ a b, tc (a ++ " " ++ b) ≤ tc a + tc b) (hempty : tc "" = 0) :
    ∀ (ss : List String) (cur : Chunk) (cnt : Nat),
    (cur.1 = [] → tc (joinSp cur.2) ≤ cnt ∧ cnt ≤ m) →
    (cur.1 = [] → cur.2 = [] → cnt = 0) →
    ∀ p ∈ sentLoopI tc m k ss cur cnt,
      p.1 ≠ [] ∨ (∃ w ∈ p.1 ++ p.2, m < tc w) ∨ tc (renderChunk p) ≤ m := by
  intro ss
  induction ss with
  | nil =>
    intro cur cnt hInv1 _ p hp
    simp only [sentLoopI] at hp
    exact flushOkLemma tc m cur cnt hInv1 p hp
  | cons s ss ih =>
    intro cur cnt hInv1 hInv2 p hp
    by_cases h1 : tc s > m
    · simp only [sentLoopI, h1, if_pos] at hp
      rcases List.mem_append.mp hp with hp | hp
      · rcases List.mem_append.mp hp with hp | hp
        · exact flushOkLemma tc m cur cnt hInv1 p hp
        · exact wordChunksOfI_bound tc m k hsub hempty s p hp
      · refine ih ([], []) 0 ?_ ?_ p hp
        · intro _
          exact ⟨Nat.le_of_eq hempty, Nat.zero_le m⟩
        · intro _ _
          rfl
    · by_cases h2 : cnt + tc s > m
      · simp only [sentLoopI, h1, if_neg, ite_false, h2, if_pos] at hp
        rcases List.mem_cons.mp hp with hp | hp
        · rw [hp]
          by_cases hc1 : cur.1 = []
          · right; right
            unfold renderChunk
            rw [hc1, List.nil_append]
            exact le_trans (hInv1 hc1).1 (hInv1 hc1).2
          · exact Or.inl hc1
        · refine ih (sliceLast2 (cur.1 ++ cur.2), [s])
            (tc (joinSp (sliceLast2 (cur.1 ++ cur.2) ++ [s]))) ?_ ?_ p hp
          · intro hov
            dsimp only at hov
            exfalso
            have hnil : cur.1 ++ cur.2 = [] := sliceLast2_eq_nil _ hov
            rcases List.append_eq_nil.mp hnil with ⟨hc1, hc2⟩
            have hcnt0 := hInv2 hc1 hc2
            rw [hcnt0, Nat.zero_add] at h2
            exact h1 h2
          · intro _ hs2
            exact absurd hs2 (by simp)
      · simp only [sentLoopI, h1, if_neg, ite_false, h2] at hp
        refine ih (cur.1, cur.2 ++ [s]) (cnt + tc s) ?_ ?_ p hp
        · intro hc1
          dsimp only at hc1 ⊢
          constructor
          · exact le_trans (tc_joinSp_append tc hsub hempty _ _)
              (Nat.add_le_add_right ((hInv1 hc1).1) _)
          · exact Nat.le_of_not_lt h2
        · intro _ hs2
          exact absurd hs2 (by simp)

/-! ## Claim C4

As stated, the claim fails: a chunk that begins with the carried-over
two-sentence overlap is pushed without its size being re-checked, so it can
exceed the budget even though no atomic token (word or sentence) does. -/

/-- C4 counterexample: with the word-count tokenizer and budget 5, the second
chunk holds 6 tokens although every word and every sentence of the input is
within budget. -/
theorem C4_counterexample :
    chunkText tcWords 5 200 c4text =
      ["aa bb cc.", "aa bb cc. dd ee ff.", "aa bb cc. dd ee ff. gg hh ii."] ∧
    5 < tcWords "aa bb cc. dd ee ff." ∧
    (∀ w ∈ splitWords "aa bb cc. dd ee ff.", tcWords w ≤ 5) ∧
    (∀ s ∈ splitSentences (normalizeText c4text), tcWords s ≤ 5) := by decide

/-- C4 amended: for a token counter that is subadditive over single-space
joins and counts the empty string as 0 tokens, every chunk either begins with
carried-over overlap items, or contains an atomic item whose own token count
exceeds the budget, or has token count at most `maxTokens`. -/
theorem C4_token_bound (tc : String → Nat) (maxTokens overlap : Nat)
    (text : String)
    (hsub : ∀ a b, tc (a ++ " " ++ b) ≤ tc a + tc b) (hempty : tc "" = 0) :
    chunkText tc maxTokens overlap text =
      (chunkTextI tc maxTokens overlap text).map renderChunk ∧
    ∀ p ∈ chunkTextI tc maxTokens overlap text,
      p.1 ≠ [] ∨ (∃ w ∈ p.1 ++ p.2, maxTokens < tc w) ∨
        tc (renderChunk p) ≤ maxTokens := by
  refine ⟨chunkText_render tc maxTokens overlap text, ?_⟩
  unfold chunkTextI
  exact sentLoopI_bound tc maxTokens _ hsub hempty _ ([], []) 0
    (fun _ => ⟨Nat.le_of_eq hempty, Nat.zero_le _⟩) (fun _ _ => rfl)

theorem C4_witness :
    ((∀ a b : String, tc0 (a ++ " " ++ b) ≤ tc0 a + tc0 b) ∧ tc0 "" = 0) ∧
    (chunkText tc0 5 200 c4text = (chunkTextI tc0 5 200 c4text).map renderChunk ∧
     ∀ p ∈ chunkTextI tc0 5 200 c4text,
       p.1 ≠ [] ∨ (∃ w ∈ p.1 ++ p.2, 5 < tc0 w) ∨ tc0 (renderChunk p) ≤ 5) :=
  ⟨⟨fun _ _ => Nat.le_refl 0, rfl⟩,
   C4_token_bound tc0 5 200 c4text (fun _ _ => Nat.le_refl 0) rfl⟩

end ResumeChecker
